import Mathlib

/-!
Verification development for the content-based medicine recommendation engine
(`medicine_recommender.py` of the AlternateMedicineRecommender repository).

The Python class `MedicineRecommender` is embedded shallowly:

* machine text is modelled as `List Char` (ASCII data; `str.lower` becomes
  `Char.toLower` pointwise, `str.strip` trims whitespace at both ends,
  Python's substring test `a in b` becomes `List.IsInfix`);
* the third-party calls (`sklearn.TfidfVectorizer` with `lowercase=True`,
  `analyzer='word'`, `ngram_range=(1,2)`, `min_df=1`, `max_df=0.95` and the
  remaining defaults, and `sklearn.cosine_similarity` /
  `numpy.argsort(..)[::-1]`) are embedded from the documented semantics of
  those library functions: word tokens are maximal runs of at least two word
  characters, the fitted vocabulary is the set of observed 1- and 2-grams
  document-frequency-filtered by `min_df`/`max_df`, weights are the smoothed
  idf `log((1+N)/(1+df)) + 1`, rows are L2-normalised, cosine similarity
  re-normalises and takes the dot product, and `argsort` (default kind:
  quicksort, i.e. introsort) guarantees only an ascending-by-value
  permutation of the positions — the relative order of equal keys is
  unspecified and unstable in general. The model realises `argsort` as a
  stable ascending sort; that realisation is exact for arrays below numpy's
  small-sort cutoff (which covers the concrete catalogues evaluated here),
  and every universal theorem of this development relies only on the
  permutation and value-sortedness properties shared by all admissible
  implementations, never on the model's tie order;
* mutable object state (`self.medicines`, `self.medicine_index_map`,
  the fitted vectorizer and `self.feature_vectors`) becomes an explicit
  `RecState` record threaded through step functions;
* Python floats are modelled as real numbers.
-/

/-! ### Text primitives -/

/-- Pointwise lowercasing of a character list, modelling Python `str.lower()`
on ASCII data. -/
def lowerL (s : List Char) : List Char := s.map Char.toLower

/-- Python `str.strip()`: remove leading and trailing whitespace. -/
def stripL (s : List Char) : List Char :=
  ((s.dropWhile Char.isWhitespace).reverse.dropWhile Char.isWhitespace).reverse

/-- A word character of the default sklearn token pattern `\w\w+` (ASCII
fragment): letters, digits and underscore. -/
def isWordChar (c : Char) : Bool := c.isAlphanum || c = '_'

/-- Splits a character list into the maximal runs of word characters; `cur`
accumulates the current run in reverse. -/
def splitRunsAux : List Char → List Char → List (List Char)
  | cur, [] => if cur = [] then [] else [cur.reverse]
  | cur, c :: rest =>
    if isWordChar c then splitRunsAux (c :: cur) rest
    else if cur = [] then splitRunsAux [] rest
    else cur.reverse :: splitRunsAux [] rest

/-- sklearn word analyzer: lowercase, then keep the maximal word-character
runs of length at least two (token pattern `\w\w+`). -/
def tokenize (s : List Char) : List (List Char) :=
  (splitRunsAux [] (lowerL s)).filter (fun t => 2 ≤ t.length)

/-- Adjacent token pairs joined by a single space (the 2-gram half of
`ngram_range=(1,2)`). -/
def bigrams : List (List Char) → List (List Char)
  | a :: b :: rest => (a ++ [' '] ++ b) :: bigrams (b :: rest)
  | _ => []

/-- All terms of one document: unigrams followed by bigrams, as produced by
sklearn's `_word_ngrams` for `ngram_range=(1,2)`. -/
def analyze (s : List Char) : List (List Char) :=
  tokenize s ++ bigrams (tokenize s)

/-! ### Corpus statistics (vocabulary building) -/

/-- The `min_df=1` parameter of the vectorizer. -/
def minDf : ℕ := 1

/-- The `max_df=0.95` parameter of the vectorizer (a proportion). -/
def maxDf : ℚ := 95 / 100

/-- Document frequency: in how many corpus documents the term occurs. -/
def dfCount (corpus : List (List Char)) (t : List Char) : ℕ :=
  (corpus.filter (fun d => decide (t ∈ analyze d))).length

/-- Every distinct term observed anywhere in the corpus (sklearn's raw
vocabulary; sklearn orders it alphabetically, which no score depends on, so
the first-occurrence order of `dedup` is used). -/
def allTerms (corpus : List (List Char)) : List (List Char) :=
  (corpus.flatMap analyze).dedup

/-- The fitted vocabulary: observed terms whose document frequency lies
between `min_df` and `max_df * corpus size`, mirroring sklearn's
`_limit_features` pruning. -/
def vocab (corpus : List (List Char)) : List (List Char) :=
  (allTerms corpus).filter
    (fun t => decide (minDf ≤ dfCount corpus t ∧
      (dfCount corpus t : ℚ) ≤ maxDf * corpus.length))

/-- Fitting succeeds unless sklearn raises: an empty raw vocabulary
("empty vocabulary"), `max_doc_count < min_doc_count`
(`max_df corresponds to fewer documents than min_df`), or a vocabulary left
empty by pruning ("after pruning, no terms remain"). -/
def fitSucceeds (corpus : List (List Char)) : Prop :=
  allTerms corpus ≠ [] ∧ (minDf : ℚ) ≤ maxDf * corpus.length ∧ vocab corpus ≠ []

instance (corpus : List (List Char)) : Decidable (fitSucceeds corpus) := by
  unfold fitSucceeds; infer_instance

/-- Term frequency of a term within one document. -/
def tfCount (d t : List Char) : ℕ := (analyze d).count t

/-! ### Real-valued layer: idf weights, vectors, cosine similarity -/

/-- Smoothed inverse document frequency, as computed by sklearn's
`TfidfTransformer` with `smooth_idf=True`: `log((n+1)/(df+1)) + 1`. -/
noncomputable def idf (n d : ℕ) : ℝ :=
  Real.log (((n : ℝ) + 1) / ((d : ℝ) + 1)) + 1

/-- Sum of squares of a real list. -/
def sumSq (v : List ℝ) : ℝ := (v.map (fun x => x ^ 2)).sum

/-- L2 normalisation; a zero-norm row is left unchanged, as sklearn's sparse
row normalisation skips zero rows. -/
noncomputable def l2normalize (v : List ℝ) : List ℝ :=
  if Real.sqrt (sumSq v) = 0 then v else v.map (fun x => x / Real.sqrt (sumSq v))

/-- Dot product of two real lists. -/
def dotL (u v : List ℝ) : ℝ := (List.zipWith (· * ·) u v).sum

/-- sklearn `cosine_similarity` of two rows: normalise each and take the dot
product (zero rows stay zero, so their similarity is 0). -/
noncomputable def cosineSim (u v : List ℝ) : ℝ :=
  dotL (l2normalize u) (l2normalize v)

/-- The raw tf·idf row of one document over the fitted vocabulary. -/
noncomputable def tfidfRow (corpus : List (List Char)) (d : List Char) : List ℝ :=
  (vocab corpus).map
    (fun t => (tfCount d t : ℝ) * idf corpus.length (dfCount corpus t))

/-- The stored feature vector of one document: its L2-normalised tf·idf row,
i.e. one row of `fit_transform`'s output. -/
noncomputable def featureVector (corpus : List (List Char)) (d : List Char) : List ℝ :=
  l2normalize (tfidfRow corpus d)

/-! ### The recommender state machine -/

/-- One catalogue record, as consumed by the engine (`category` and
`description` never influence any modelled computation and are omitted). -/
structure Medicine where
  name : List Char
  uses : List (List Char)
  components : List (List Char)
deriving DecidableEq, Inhabited

/-- `prepare_features`: `' '.join(uses) + ' ' + ' '.join(components)`,
stripped. -/
def prepareFeatures (m : Medicine) : List Char :=
  stripL (List.intercalate [' '] m.uses ++ [' '] ++ List.intercalate [' '] m.components)

/-- The feature-vector rows produced by a training pass over the catalogue. -/
noncomputable def trainVectors (meds : List Medicine) : List (List ℝ) :=
  (meds.map prepareFeatures).map (featureVector (meds.map prepareFeatures))

/-- The mutable fields of a `MedicineRecommender` object. -/
structure RecState where
  medicines : List Medicine
  medicineIndexMap : List (List Char × ℕ)
  vectorizerVocab : Option (List (List Char))
  featureVectors : Option (List (List ℝ))

/-- The state made by `__init__`. -/
def initState : RecState :=
  { medicines := [], medicineIndexMap := [], vectorizerVocab := none,
    featureVectors := none }

/-- The bindings of the dict comprehension
`{med['name'].lower(): idx for idx, med in enumerate(medicines)}`, in
enumeration order starting at `n`. -/
def buildIndexMapFrom : ℕ → List Medicine → List (List Char × ℕ)
  | _, [] => []
  | n, m :: ms => (lowerL m.name, n) :: buildIndexMapFrom (n + 1) ms

/-- The name-to-position index built at load time. -/
def buildIndexMap (ms : List Medicine) : List (List Char × ℕ) :=
  buildIndexMapFrom 0 ms

/-- Python dict lookup over the comprehension's bindings: the last binding
for a key wins. -/
def dictLookup (ps : List (List Char × ℕ)) (k : List Char) : Option ℕ :=
  (ps.reverse.find? (fun p => decide (p.1 = k))).map Prod.snd

/-- `load_database`. The file read and JSON parse are modelled by the
optional input: `none` is the `FileNotFoundError` / `JSONDecodeError` path
(print an error, return `False`, touch nothing), `some meds` the successful
parse of `data.get('medicines', [])`, which is stored unconditionally (even
when empty) together with a fresh index map, returning `True`. -/
def loadDatabase (s : RecState) : Option (List Medicine) → Bool × RecState
  | none => (false, s)
  | some meds =>
    (true, { s with medicines := meds, medicineIndexMap := buildIndexMap meds })

/-- Outcome of `train_model`: `ok` is Python's `return True`, `noMedicines`
Python's error print plus `return False` on an empty catalogue, `fitError`
an exception escaping from `fit_transform`. -/
inductive TrainResult where
  | ok
  | noMedicines
  | fitError
deriving DecidableEq

/-- `train_model`: refuse an empty catalogue, otherwise fit the vectorizer
over all prepared feature texts and store the resulting matrix. Failures
leave every field unchanged (the assignment never executes). -/
noncomputable def trainModel (s : RecState) : TrainResult × RecState :=
  if s.medicines = [] then (.noMedicines, s)
  else if fitSucceeds (s.medicines.map prepareFeatures) then
    (.ok, { s with
      vectorizerVocab := some (vocab (s.medicines.map prepareFeatures)),
      featureVectors := some (trainVectors s.medicines) })
  else (.fitError, s)

/-- `find_medicine`: exact lookup of the lowered, stripped query in the
index map, then the linear first-substring-match fallback. -/
def findMedicine (s : RecState) (name : List Char) : Option Medicine :=
  match dictLookup s.medicineIndexMap (stripL (lowerL name)) with
  | some idx => s.medicines[idx]?
  | none =>
    s.medicines.find? (fun m => decide (stripL (lowerL name) <:+: lowerL m.name))

/-- The comparison `numpy.argsort` realises on similarity scores: ascending
by score, equal scores kept in ascending position order (stable). -/
def lexLe (sims : List ℝ) (a b : ℕ) : Prop :=
  sims.getD a 0 < sims.getD b 0 ∨ (sims.getD a 0 = sims.getD b 0 ∧ a ≤ b)

noncomputable instance lexLeDecidable (sims : List ℝ) : DecidableRel (lexLe sims) :=
  fun _ _ => Classical.dec _

instance lexLeTotal (sims : List ℝ) : IsTotal ℕ (lexLe sims) := by
  constructor
  intro a b
  rcases lt_trichotomy (sims.getD a 0) (sims.getD b 0) with h | h | h
  · exact Or.inl (Or.inl h)
  · rcases Nat.le_total a b with hab | hba
    · exact Or.inl (Or.inr ⟨h, hab⟩)
    · exact Or.inr (Or.inr ⟨h.symm, hba⟩)
  · exact Or.inr (Or.inl h)

instance lexLeTrans (sims : List ℝ) : IsTrans ℕ (lexLe sims) := by
  constructor
  intro a b c hab hbc
  rcases hab with h1 | ⟨h1, h1'⟩
  · rcases hbc with h2 | ⟨h2, _⟩
    · exact Or.inl (h1.trans h2)
    · exact Or.inl (h2 ▸ h1)
  · rcases hbc with h2 | ⟨h2, h2'⟩
    · exact Or.inl (h1 ▸ h2)
    · exact Or.inr ⟨h1.trans h2, h1'.trans h2'⟩

/-- `np.argsort(similarities)[::-1]`. The library call (default
`kind='quicksort'`, an introsort) promises only that its output is a
permutation of the positions sorted ascending by score; the relative order
of equal scores is unspecified, and unstable once a partition exceeds the
small-sort cutoff (about 16 elements), below which numpy runs a stable
insertion sort. This model realises the call as a stable ascending sort and
reverses it, matching the real output exactly on small inputs such as the
concrete catalogues below; universal theorems about the ranking must rely
(and in this development do rely) only on the permutation and
value-sortedness facts (`argsortDesc_perm`, `argsortDesc_scores_mono`),
which hold for every admissible implementation of `argsort`, never on this
model's particular tie order. -/
noncomputable def argsortDesc (sims : List ℝ) : List ℕ :=
  (List.insertionSort (lexLe sims) (List.range sims.length)).reverse

/-- `cosine_similarity(input_vector, feature_vectors).flatten()`. -/
noncomputable def simsOf (fvs : List (List ℝ)) (inputVec : List ℝ) : List ℝ :=
  fvs.map (cosineSim inputVec)

/-- The result-building loop of `recommend_similar`: walk the descending
positions, skip the query's own position when `exclude_self`, append,
and break once `len(recommendations) >= top_n`. -/
def recLoop (inputIdx : ℕ) (topN : ℤ) (excludeSelf : Bool) :
    List ℕ → List ℕ → List ℕ
  | acc, [] => acc
  | acc, i :: rest =>
    if excludeSelf = true ∧ i = inputIdx then
      recLoop inputIdx topN excludeSelf acc rest
    else if topN ≤ (acc.length : ℤ) + 1 then acc ++ [i]
    else recLoop inputIdx topN excludeSelf (acc ++ [i]) rest

/-- The catalogue positions `recommend_similar` selects, in output order. -/
noncomputable def rankIndices (fvs : List (List ℝ)) (inputIdx : ℕ)
    (inputVec : List ℝ) (topN : ℤ) (excludeSelf : Bool) : List ℕ :=
  recLoop inputIdx topN excludeSelf [] (argsortDesc (simsOf fvs inputVec))

/-- Outcome of `recommend_similar`. `notTrained` and `notFound` are the two
error prints followed by `return []`; `keyFault` and `indexFault` model the
`KeyError`/`IndexError` exceptions Python would raise on a corrupted state
(they are unreachable from the public operations). -/
inductive RecResult where
  | notTrained
  | notFound
  | keyFault
  | indexFault
  | ok : List (Medicine × ℝ) → RecResult

/-- `recommend_similar`. -/
noncomputable def recommendSimilar (s : RecState) (name : List Char)
    (topN : ℤ) (excludeSelf : Bool) : RecResult :=
  match s.featureVectors with
  | none => .notTrained
  | some fvs =>
    match findMedicine s name with
    | none => .notFound
    | some med =>
      match dictLookup s.medicineIndexMap (lowerL med.name) with
      | none => .keyFault
      | some inputIdx =>
        match fvs[inputIdx]? with
        | none => .indexFault
        | some inputVec =>
          let sims := simsOf fvs inputVec
          .ok ((rankIndices fvs inputIdx inputVec topN excludeSelf).map
            (fun i => (s.medicines.getD i default, sims.getD i 0)))

/-! ### Public operations as state transformers, and traces -/

/-- `find_medicine` as a step on the object: the method reads `self` but
assigns no attribute, so the state component is returned unchanged. -/
def findMedicineOp (s : RecState) (name : List Char) : Option Medicine × RecState :=
  (findMedicine s name, s)

/-- `recommend_similar` as a step on the object: again no attribute of
`self` is assigned. -/
noncomputable def recommendOp (s : RecState) (name : List Char) (topN : ℤ)
    (excludeSelf : Bool) : RecResult × RecState :=
  (recommendSimilar s name topN excludeSelf, s)

/-- One public call on the object. -/
inductive Op where
  | load : Option (List Medicine) → Op
  | train : Op
  | findOp : List Char → Op
  | recommendOp : List Char → ℤ → Bool → Op

/-- The state after one call. -/
noncomputable def stepState (s : RecState) : Op → RecState
  | .load d => (loadDatabase s d).2
  | .train => (trainModel s).2
  | .findOp n => (findMedicineOp s n).2
  | .recommendOp n t e => (recommendOp s n t e).2

/-- The state after a sequence of calls. -/
noncomputable def runOps (s : RecState) : List Op → RecState
  | [] => s
  | op :: ops => runOps (stepState s op) ops

/-- The trace contains no `train` call that completes successfully. -/
def NoSuccTrain : RecState → List Op → Prop
  | _, [] => True
  | s, op :: ops =>
    (op = Op.train → (trainModel s).1 ≠ TrainResult.ok) ∧
      NoSuccTrain (stepState s op) ops

/-- A state exactly as left by a successful `train_model` on its current
catalogue: consistent index map and stored feature vectors, with the fit
conditions satisfied. This is the formal reading of "trained catalogue". -/
def TrainedOn (s : RecState) : Prop :=
  s.medicines ≠ [] ∧
  fitSucceeds (s.medicines.map prepareFeatures) ∧
  s.medicineIndexMap = buildIndexMap s.medicines ∧
  s.featureVectors = some (trainVectors s.medicines)

/-- The ordering property asserted of a recommendation output: scores are
non-increasing, and two results with equal scores appear in ascending
catalogue position (position read off by looking the record up in the
catalogue). -/
def ascendingTies (meds : List Medicine) (out : List (Medicine × ℝ)) : Prop :=
  List.Pairwise
    (fun p q => q.2 ≤ p.2 ∧
      (p.2 = q.2 → ∀ i j : ℕ, meds[i]? = some p.1 → meds[j]? = some q.1 → i < j))
    out

/-! ### Concrete catalogues for witnesses and counterexamples -/

/-- "Aspirin" record of the spec's lookup scenario. -/
def aspirinMed : Medicine :=
  { name := "Aspirin".toList, uses := ["pain".toList], components := [] }

/-- "Ibuprofen" record of the spec's lookup scenario. -/
def ibuprofenMed : Medicine :=
  { name := "Ibuprofen".toList, uses := ["pain".toList], components := [] }

/-- A small loaded catalogue for lookup claims. -/
def fMeds : List Medicine := [aspirinMed, ibuprofenMed]

/-- The state after loading `fMeds`. -/
def fSt : RecState := (loadDatabase initState (some fMeds)).2

/-- Record `Aa` (feature text `xx`), the query of the tie-order example. -/
def cexA : Medicine :=
  { name := "Aa".toList, uses := ["xx".toList], components := [] }

/-- Record `Bb` (feature text `yy`). -/
def cexB : Medicine :=
  { name := "Bb".toList, uses := ["yy".toList], components := [] }

/-- Record `Cc` (feature text `yy`, identical to `Bb`'s, forcing a score
tie). -/
def cexC : Medicine :=
  { name := "Cc".toList, uses := ["yy".toList], components := [] }

/-- The three-record catalogue with a similarity tie between positions 1
and 2. -/
def cexMeds : List Medicine := [cexA, cexB, cexC]

/-- The state after loading `cexMeds`. -/
def cexLoaded : RecState := (loadDatabase initState (some cexMeds)).2

/-- The state after training on `cexMeds`. -/
noncomputable def cexSt : RecState := (trainModel cexLoaded).2

/-- The feature texts of `cexMeds`. -/
def cexCorpus : List (List Char) := ["xx".toList, "yy".toList, "yy".toList]

/-! ### Lemmas about the result-building loop -/

theorem recLoop_cons (inputIdx : ℕ) (topN : ℤ) (ex : Bool) (acc : List ℕ)
    (a : ℕ) (rest : List ℕ) :
    recLoop inputIdx topN ex acc (a :: rest) =
      if ex = true ∧ a = inputIdx then recLoop inputIdx topN ex acc rest
      else if topN ≤ (acc.length : ℤ) + 1 then acc ++ [a]
      else recLoop inputIdx topN ex (acc ++ [a]) rest := rfl

theorem recLoop_eq_append (inputIdx : ℕ) (topN : ℤ) (ex : Bool) :
    ∀ (l acc : List ℕ), ∃ t, recLoop inputIdx topN ex acc l = acc ++ t ∧ t.Sublist l := by
  intro l
  induction l with
  | nil => intro acc; exact ⟨[], by simp [recLoop]⟩
  | cons a rest ih =>
    intro acc
    rw [recLoop_cons]
    by_cases hskip : ex = true ∧ a = inputIdx
    · rw [if_pos hskip]
      obtain ⟨t, ht, hs⟩ := ih acc
      exact ⟨t, ht, hs.cons a⟩
    · rw [if_neg hskip]
      by_cases hbrk : topN ≤ (acc.length : ℤ) + 1
      · rw [if_pos hbrk]
        exact ⟨[a], rfl, (List.nil_sublist rest).cons₂ a⟩
      · rw [if_neg hbrk]
        obtain ⟨t, ht, hs⟩ := ih (acc ++ [a])
        exact ⟨a :: t, by rw [ht, List.append_assoc]; rfl, hs.cons₂ a⟩

theorem recLoop_not_mem (inputIdx : ℕ) (topN : ℤ) :
    ∀ (l acc : List ℕ), inputIdx ∉ acc →
      inputIdx ∉ recLoop inputIdx topN true acc l := by
  intro l
  induction l with
  | nil => intro acc h; simpa [recLoop] using h
  | cons a rest ih =>
    intro acc h
    rw [recLoop_cons]
    by_cases ha : a = inputIdx
    · rw [if_pos ⟨rfl, ha⟩]
      exact ih acc h
    · rw [if_neg (by simp [ha])]
      have hacc : inputIdx ∉ acc ++ [a] := by
        intro hmem
        rcases List.mem_append.mp hmem with h1 | h1
        · exact h h1
        · exact ha (List.mem_singleton.mp h1).symm
      by_cases hbrk : topN ≤ (acc.length : ℤ) + 1
      · rw [if_pos hbrk]; exact hacc
      · rw [if_neg hbrk]; exact ih (acc ++ [a]) hacc

theorem recLoop_eq_take_filter (inputIdx : ℕ) (topN : ℤ) :
    ∀ (l acc : List ℕ), (acc.length : ℤ) < topN →
      recLoop inputIdx topN true acc l =
        acc ++ (l.filter (fun x => !decide (x = inputIdx))).take
          (topN - acc.length).toNat := by
  intro l
  induction l with
  | nil => intro acc _; simp [recLoop]
  | cons a rest ih =>
    intro acc hlt
    rw [recLoop_cons]
    by_cases ha : a = inputIdx
    · rw [if_pos ⟨rfl, ha⟩, ih acc hlt]
      have : (a :: rest).filter (fun x => !decide (x = inputIdx)) =
          rest.filter (fun x => !decide (x = inputIdx)) := by
        simp [List.filter_cons, ha]
      rw [this]
    · have hfil : (a :: rest).filter (fun x => !decide (x = inputIdx)) =
          a :: rest.filter (fun x => !decide (x = inputIdx)) := by
        simp [List.filter_cons, ha]
      rw [if_neg (by simp [ha]), hfil]
      by_cases hbrk : topN ≤ (acc.length : ℤ) + 1
      · have h1 : (topN - acc.length).toNat = 1 := by omega
        rw [if_pos hbrk, h1, List.take_succ_cons, List.take_zero]
      · have h2 : (topN - acc.length).toNat =
            (topN - ((acc.length : ℤ) + 1)).toNat + 1 := by omega
        rw [if_neg hbrk, ih (acc ++ [a]) (by simp; omega)]
        rw [List.append_assoc, h2, List.take_succ_cons]
        simp

/-! ### Lemmas about the argsort model -/

theorem argsortDesc_perm (sims : List ℝ) :
    (argsortDesc sims).Perm (List.range sims.length) := by
  unfold argsortDesc
  exact (List.reverse_perm _).trans (List.perm_insertionSort _ _)

theorem argsortDesc_nodup (sims : List ℝ) : (argsortDesc sims).Nodup :=
  ((argsortDesc_perm sims).symm.nodup (List.nodup_range _))

theorem argsortDesc_sorted (sims : List ℝ) :
    List.Pairwise (fun a b => lexLe sims b a) (argsortDesc sims) := by
  unfold argsortDesc
  exact List.pairwise_reverse.mpr (List.sorted_insertionSort (lexLe sims) _)

theorem argsortDesc_scores_mono (sims : List ℝ) :
    List.Pairwise (fun a b => sims.getD b 0 ≤ sims.getD a 0)
      (argsortDesc sims) := by
  refine (argsortDesc_sorted sims).imp ?_
  rintro a b (hlt | ⟨heq, _⟩)
  · exact le_of_lt hlt
  · exact le_of_eq heq

/-! ### Lemmas about the name index -/

theorem mem_buildIndexMapFrom :
    ∀ (ms : List Medicine) (n : ℕ) (k : List Char) (i : ℕ),
      (k, i) ∈ buildIndexMapFrom n ms →
      ∃ j m, ms[j]? = some m ∧ i = n + j ∧ lowerL m.name = k := by
  intro ms
  induction ms with
  | nil => intro n k i h; simp [buildIndexMapFrom] at h
  | cons m ms ih =>
    intro n k i h
    simp only [buildIndexMapFrom, List.mem_cons] at h
    rcases h with h | h
    · obtain ⟨hk, hi⟩ := Prod.mk.injEq .. ▸ h
      exact ⟨0, m, by simp, by omega, hk.symm ▸ rfl⟩
    · obtain ⟨j, m', hj, hi, hk⟩ := ih (n + 1) k i h
      exact ⟨j + 1, m', by simpa using hj, by omega, hk⟩

theorem key_mem_buildIndexMapFrom :
    ∀ (ms : List Medicine) (n : ℕ) (m : Medicine), m ∈ ms →
      ∃ i, (lowerL m.name, i) ∈ buildIndexMapFrom n ms := by
  intro ms
  induction ms with
  | nil => intro n m h; simp at h
  | cons m' ms ih =>
    intro n m h
    rcases List.mem_cons.mp h with h | h
    · exact ⟨n, by simp [buildIndexMapFrom, h]⟩
    · obtain ⟨i, hi⟩ := ih (n + 1) m h
      exact ⟨i, by simp [buildIndexMapFrom, hi]⟩

theorem dictLookup_eq_some {ps : List (List Char × ℕ)} {k : List Char} {i : ℕ}
    (h : dictLookup ps k = some i) : (k, i) ∈ ps := by
  unfold dictLookup at h
  cases hf : ps.reverse.find? (fun p => decide (p.1 = k)) with
  | none => simp [hf] at h
  | some p =>
    have hp1 : p.1 = k := by simpa using List.find?_some hf
    have hp2 : p.2 = i := by simp [hf] at h; exact h
    have hmem : p ∈ ps := List.mem_reverse.mp (List.mem_of_find?_eq_some hf)
    have : p = (k, i) := Prod.ext hp1 hp2
    exact this ▸ hmem

theorem dictLookup_isSome_of_mem {ps : List (List Char × ℕ)} {k : List Char}
    {i : ℕ} (h : (k, i) ∈ ps) : ∃ j, dictLookup ps k = some j := by
  have : ∃ x ∈ ps.reverse, (fun p : List Char × ℕ => decide (p.1 = k)) x = true :=
    ⟨(k, i), List.mem_reverse.mpr h, by simp⟩
  obtain ⟨p, hp⟩ := Option.isSome_iff_exists.mp (List.find?_isSome.mpr this)
  exact ⟨p.2, by simp [dictLookup, hp]⟩

theorem dictLookup_buildIndexMap_some {ms : List Medicine} {k : List Char}
    {i : ℕ} (h : dictLookup (buildIndexMap ms) k = some i) :
    ∃ m, ms[i]? = some m ∧ lowerL m.name = k := by
  obtain ⟨j, m, hj, hi, hk⟩ :=
    mem_buildIndexMapFrom ms 0 k i (dictLookup_eq_some h)
  exact ⟨m, by simpa [hi] using hj, hk⟩

theorem dictLookup_buildIndexMap_of_mem {ms : List Medicine} {m : Medicine}
    (h : m ∈ ms) : ∃ i, dictLookup (buildIndexMap ms) (lowerL m.name) = some i := by
  obtain ⟨i, hi⟩ := key_mem_buildIndexMapFrom ms 0 m h
  exact dictLookup_isSome_of_mem hi

theorem findMedicine_mem {s : RecState} {name : List Char} {m : Medicine}
    (h : findMedicine s name = some m) : m ∈ s.medicines := by
  unfold findMedicine at h
  cases hd : dictLookup s.medicineIndexMap (stripL (lowerL name)) with
  | some idx =>
    rw [hd] at h
    exact List.getElem?_mem h
  | none =>
    rw [hd] at h
    exact List.mem_of_find?_eq_some h

/-! ### A first-match characterisation of `List.find?` -/

theorem find?_first {α : Type} {p : α → Bool} :
    ∀ {l : List α} {a : α}, l.find? p = some a →
      ∃ i : ℕ, l[i]? = some a ∧ p a = true ∧
        ∀ (j : ℕ) (b : α), j < i → l[j]? = some b → p b = false := by
  intro l
  induction l with
  | nil => intro a h; simp at h
  | cons x xs ih =>
    intro a h
    by_cases hx : p x = true
    · rw [List.find?_cons_of_pos xs hx] at h
      obtain rfl : x = a := by simpa using h
      exact ⟨0, by simp, hx, by omega⟩
    · rw [List.find?_cons_of_neg xs hx] at h
      obtain ⟨i, hi, hpa, hfirst⟩ := ih h
      refine ⟨i + 1, by simpa using hi, hpa, ?_⟩
      intro j b hj hjb
      cases j with
      | zero =>
        obtain rfl : x = b := by simpa using hjb
        exact Bool.not_eq_true _ ▸ hx
      | succ j' => exact hfirst j' b (by omega) (by simpa using hjb)

/-! ### Real-valued facts: dot products, normalisation, similarity bounds -/

theorem sumSq_nonneg (v : List ℝ) : 0 ≤ sumSq v := by
  unfold sumSq
  apply List.sum_nonneg
  intro x hx
  obtain ⟨y, _, rfl⟩ := List.mem_map.mp hx
  positivity

theorem dotL_nonneg : ∀ (u v : List ℝ), (∀ x ∈ u, 0 ≤ x) → (∀ x ∈ v, 0 ≤ x) →
    0 ≤ dotL u v := by
  intro u
  induction u with
  | nil => intro v _ _; simp [dotL]
  | cons a u ih =>
    intro v hu hv
    cases v with
    | nil => simp [dotL]
    | cons b v =>
      have h1 : 0 ≤ a * b :=
        mul_nonneg (hu a (by simp)) (hv b (by simp))
      have h2 : 0 ≤ dotL u v :=
        ih v (fun x hx => hu x (by simp [hx])) (fun x hx => hv x (by simp [hx]))
      simpa [dotL, List.zipWith_cons_cons] using add_nonneg h1 h2

theorem dotL_eq_sum : ∀ (u v : List ℝ),
    dotL u v = ∑ i ∈ Finset.range (min u.length v.length),
      u.getD i 0 * v.getD i 0 := by
  intro u
  induction u with
  | nil => intro v; simp [dotL]
  | cons a u ih =>
    intro v
    cases v with
    | nil => simp [dotL]
    | cons b v =>
      have hmin : min (a :: u).length (b :: v).length = min u.length v.length + 1 := by
        simp [Nat.succ_min_succ]
      rw [hmin, Finset.sum_range_succ']
      simp only [List.getD_cons_succ, List.getD_cons_zero]
      rw [← ih v]
      simp [dotL, List.zipWith_cons_cons, add_comm]

theorem sumSq_eq_sum : ∀ (v : List ℝ),
    sumSq v = ∑ i ∈ Finset.range v.length, v.getD i 0 ^ 2 := by
  intro v
  induction v with
  | nil => simp [sumSq]
  | cons a v ih =>
    rw [List.length_cons, Finset.sum_range_succ']
    simp only [List.getD_cons_succ, List.getD_cons_zero]
    rw [← ih]
    simp [sumSq, add_comm]

theorem dotL_sq_le (u v : List ℝ) : dotL u v ^ 2 ≤ sumSq u * sumSq v := by
  rw [dotL_eq_sum]
  have hcs := Finset.sum_mul_sq_le_sq_mul_sq (Finset.range (min u.length v.length))
    (fun i => u.getD i 0) (fun i => v.getD i 0)
  refine hcs.trans (mul_le_mul ?_ ?_ ?_ (sumSq_nonneg u))
  · rw [sumSq_eq_sum]
    exact Finset.sum_le_sum_of_subset_of_nonneg
      (Finset.range_subset.mpr (Nat.min_le_left _ _))
      (fun i _ _ => sq_nonneg _)
  · rw [sumSq_eq_sum]
    exact Finset.sum_le_sum_of_subset_of_nonneg
      (Finset.range_subset.mpr (Nat.min_le_right _ _))
      (fun i _ _ => sq_nonneg _)
  · exact Finset.sum_nonneg (fun i _ => sq_nonneg _)

theorem sumSq_map_div (v : List ℝ) (c : ℝ) :
    sumSq (v.map (fun x => x / c)) = sumSq v / c ^ 2 := by
  induction v with
  | nil => simp [sumSq]
  | cons a v ih =>
    simp only [List.map_cons, sumSq, List.sum_cons] at *
    rw [ih, div_pow, div_add_div_same]

theorem sumSq_eq_zero_of_sqrt_eq_zero {v : List ℝ}
    (h : Real.sqrt (sumSq v) = 0) : sumSq v = 0 :=
  le_antisymm (Real.sqrt_eq_zero'.mp h) (sumSq_nonneg v)

theorem sumSq_l2normalize_le_one (v : List ℝ) : sumSq (l2normalize v) ≤ 1 := by
  unfold l2normalize
  split
  · have h0 := sumSq_eq_zero_of_sqrt_eq_zero (by assumption)
    rw [h0]; norm_num
  · rename_i hne
    rw [sumSq_map_div, Real.sq_sqrt (sumSq_nonneg v)]
    have hvne : sumSq v ≠ 0 := by
      intro h0
      exact hne (by rw [h0, Real.sqrt_zero])
    rw [div_self hvne]

theorem l2normalize_nonneg {v : List ℝ} (h : ∀ x ∈ v, 0 ≤ x) :
    ∀ x ∈ l2normalize v, 0 ≤ x := by
  unfold l2normalize
  split
  · exact h
  · intro x hx
    obtain ⟨y, hy, rfl⟩ := List.mem_map.mp hx
    exact div_nonneg (h y hy) (Real.sqrt_nonneg _)

theorem cosineSim_nonneg {u v : List ℝ} (hu : ∀ x ∈ u, 0 ≤ x)
    (hv : ∀ x ∈ v, 0 ≤ x) : 0 ≤ cosineSim u v :=
  dotL_nonneg _ _ (l2normalize_nonneg hu) (l2normalize_nonneg hv)

theorem cosineSim_le_one (u v : List ℝ) : cosineSim u v ≤ 1 := by
  unfold cosineSim
  have hsq : dotL (l2normalize u) (l2normalize v) ^ 2 ≤ 1 := by
    refine (dotL_sq_le _ _).trans ?_
    exact mul_le_one (sumSq_l2normalize_le_one u)
      (sumSq_nonneg _) (sumSq_l2normalize_le_one v)
  have := (sq_le_one_iff_abs_le_one _).mp hsq
  exact (abs_le.mp this).2

theorem dotL_eq_zero_of_left_zero : ∀ (u v : List ℝ), (∀ x ∈ u, x = 0) →
    dotL u v = 0 := by
  intro u
  induction u with
  | nil => intro v _; simp [dotL]
  | cons a u ih =>
    intro v h
    cases v with
    | nil => simp [dotL]
    | cons b v =>
      have ha : a = 0 := h a (by simp)
      have := ih v (fun x hx => h x (by simp [hx]))
      simp [dotL, List.zipWith_cons_cons, ha] at *
      exact this

theorem l2normalize_all_zero {v : List ℝ} (h : ∀ x ∈ v, x = 0) :
    ∀ x ∈ l2normalize v, x = 0 := by
  unfold l2normalize
  split
  · exact h
  · intro x hx
    obtain ⟨y, hy, rfl⟩ := List.mem_map.mp hx
    rw [h y hy, zero_div]

theorem cosineSim_zero_left {u : List ℝ} (h : ∀ x ∈ u, x = 0) (v : List ℝ) :
    cosineSim u v = 0 :=
  dotL_eq_zero_of_left_zero _ _ (l2normalize_all_zero h)

/-! ### The trained vectors have non-negative entries -/

theorem dfCount_le_length (corpus : List (List Char)) (t : List Char) :
    dfCount corpus t ≤ corpus.length :=
  List.length_filter_le _ _

theorem idf_nonneg {n d : ℕ} (h : d ≤ n) : 0 ≤ idf n d := by
  unfold idf
  have hlog : 0 ≤ Real.log (((n : ℝ) + 1) / ((d : ℝ) + 1)) := by
    apply Real.log_nonneg
    rw [le_div_iff (by positivity)]
    have : (d : ℝ) ≤ (n : ℝ) := Nat.cast_le.mpr h
    linarith
  linarith

theorem tfidfRow_nonneg (corpus : List (List Char)) (d : List Char) :
    ∀ x ∈ tfidfRow corpus d, 0 ≤ x := by
  intro x hx
  obtain ⟨t, _, rfl⟩ := List.mem_map.mp hx
  exact mul_nonneg (Nat.cast_nonneg _) (idf_nonneg (dfCount_le_length corpus t))

theorem featureVector_nonneg (corpus : List (List Char)) (d : List Char) :
    ∀ x ∈ featureVector corpus d, 0 ≤ x :=
  l2normalize_nonneg (tfidfRow_nonneg corpus d)

/-! ### Basic facts about trained states -/

theorem trainVectors_length (meds : List Medicine) :
    (trainVectors meds).length = meds.length := by
  simp [trainVectors]

theorem simsOf_length (fvs : List (List ℝ)) (v : List ℝ) :
    (simsOf fvs v).length = fvs.length := by
  simp [simsOf]

theorem trainModel_stays_if_not_ok {s : RecState}
    (h : (trainModel s).1 ≠ TrainResult.ok) : (trainModel s).2 = s := by
  unfold trainModel at *
  split_ifs at * with h1 h2
  · rfl
  · exact absurd rfl h
  · rfl

theorem trainModel_ok_iff (s : RecState) :
    (trainModel s).1 = TrainResult.ok ↔
      s.medicines ≠ [] ∧ fitSucceeds (s.medicines.map prepareFeatures) := by
  unfold trainModel
  split_ifs with h1 h2
  · simp [h1]
  · simp [h1, h2]
  · simp [h1, h2]

theorem trainModel_ok_trainedOn {s : RecState}
    (hIdx : s.medicineIndexMap = buildIndexMap s.medicines)
    (h : (trainModel s).1 = TrainResult.ok) : TrainedOn (trainModel s).2 := by
  obtain ⟨h1, h2⟩ := (trainModel_ok_iff s).mp h
  unfold trainModel
  rw [if_neg h1, if_pos h2]
  exact ⟨h1, h2, hIdx, rfl⟩

theorem loadDatabase_fv (s : RecState) (d : Option (List Medicine)) :
    (loadDatabase s d).2.featureVectors = s.featureVectors := by
  cases d <;> rfl

theorem noSuccTrain_fv_none :
    ∀ (ops : List Op) (s : RecState), s.featureVectors = none →
      NoSuccTrain s ops → (runOps s ops).featureVectors = none := by
  intro ops
  induction ops with
  | nil => intro s h _; exact h
  | cons op ops ih =>
    intro s h hns
    obtain ⟨h1, h2⟩ := hns
    cases op with
    | load d =>
      exact ih _ (by rw [stepState, loadDatabase_fv]; exact h) h2
    | train =>
      have hne := h1 rfl
      exact ih _ (by rw [stepState, trainModel_stays_if_not_ok hne]; exact h) h2
    | findOp n => exact ih _ h h2
    | recommendOp n t e => exact ih _ h h2

/-! ### The shape of `recommend_similar` on a trained state -/

theorem recommendSimilar_trained {s : RecState} {name : List Char}
    {med : Medicine} (topN : ℤ) (ex : Bool)
    (hT : TrainedOn s) (hf : findMedicine s name = some med) :
    ∃ inputIdx : ℕ,
      dictLookup (buildIndexMap s.medicines) (lowerL med.name) = some inputIdx ∧
      inputIdx < s.medicines.length ∧
      (∃ m', s.medicines[inputIdx]? = some m' ∧ lowerL m'.name = lowerL med.name) ∧
      recommendSimilar s name topN ex =
        RecResult.ok ((rankIndices (trainVectors s.medicines) inputIdx
            ((trainVectors s.medicines).getD inputIdx []) topN ex).map
          (fun i => (s.medicines.getD i default,
            (simsOf (trainVectors s.medicines)
              ((trainVectors s.medicines).getD inputIdx [])).getD i 0))) := by
  obtain ⟨hne, hfit, hmap, hfv⟩ := hT
  have hmem : med ∈ s.medicines := findMedicine_mem hf
  obtain ⟨inputIdx, hlook⟩ := dictLookup_buildIndexMap_of_mem hmem
  obtain ⟨m', hm', hname⟩ := dictLookup_buildIndexMap_some hlook
  have hbound : inputIdx < s.medicines.length := by
    by_contra hge
    rw [List.getElem?_eq_none (le_of_not_lt hge)] at hm'
    exact Option.noConfusion hm'
  have hfbound : inputIdx < (trainVectors s.medicines).length := by
    rw [trainVectors_length]; exact hbound
  have hvec : (trainVectors s.medicines)[inputIdx]? =
      some ((trainVectors s.medicines).getD inputIdx []) := by
    rw [List.getElem?_eq_getElem hfbound,
      List.getD_eq_getElem _ _ hfbound]
  have hlook' : dictLookup s.medicineIndexMap (lowerL med.name) = some inputIdx := by
    rw [hmap]; exact hlook
  refine ⟨inputIdx, hlook, hbound, ⟨m', hm', hname⟩, ?_⟩
  simp only [recommendSimilar, hfv, hf, hlook', hvec]

/-! ### Counting the survivors of self-exclusion -/

theorem length_filter_ne_range {n i : ℕ} (h : i < n) :
    ((List.range n).filter (fun x => !decide (x = i))).length = n - 1 := by
  have hperm : (List.range n).Perm (i :: (List.range n).erase i) :=
    List.perm_cons_erase (List.mem_range.mpr h)
  have hfp := (List.Perm.filter (fun x => !decide (x = i)) hperm).length_eq
  rw [hfp]
  have hfc : (i :: (List.range n).erase i).filter (fun x => !decide (x = i)) =
      ((List.range n).erase i).filter (fun x => !decide (x = i)) := by
    simp [List.filter_cons]
  rw [hfc, List.filter_eq_self.mpr, List.length_erase_of_mem (List.mem_range.mpr h),
    List.length_range]
  intro a ha
  have := ((List.nodup_range n).mem_erase_iff.mp ha).1
  simp [this]


theorem cex_corpus_eq : cexMeds.map prepareFeatures = cexCorpus := by decide

theorem cex_vocab : vocab cexCorpus = ["xx".toList, "yy".toList] := by
  rw [vocab, show allTerms cexCorpus = ["xx".toList, "yy".toList] from by decide]
  simp only [List.filter_cons, List.filter_nil]
  rw [show dfCount cexCorpus "xx".toList = 1 from by decide,
    show dfCount cexCorpus "yy".toList = 2 from by decide,
    show cexCorpus.length = 3 from rfl]
  norm_num [List.filter_cons, minDf, maxDf]

theorem cex_fit : fitSucceeds cexCorpus := by
  refine ⟨by decide, ?_, ?_⟩
  · rw [show cexCorpus.length = 3 from rfl]
    norm_num [minDf, maxDf]
  · rw [cex_vocab]
    simp

theorem cex_fit' : fitSucceeds (cexLoaded.medicines.map prepareFeatures) := by
  rw [show cexLoaded.medicines = cexMeds from rfl, cex_corpus_eq]
  exact cex_fit

theorem cexTrain_ok : (trainModel cexLoaded).1 = TrainResult.ok := by
  rw [trainModel, if_neg (by decide), if_pos cex_fit']

theorem cexSt_eq : cexSt =
    { medicines := cexMeds, medicineIndexMap := buildIndexMap cexMeds,
      vectorizerVocab := some (vocab cexCorpus),
      featureVectors := some (trainVectors cexMeds) } := by
  rw [cexSt, trainModel, if_neg (by decide), if_pos cex_fit']
  rfl

theorem cexSt_trainedOn : TrainedOn cexSt := by
  rw [cexSt_eq]
  refine ⟨by decide, ?_, rfl, rfl⟩
  show fitSucceeds (cexMeds.map prepareFeatures)
  rw [cex_corpus_eq]
  exact cex_fit

/-! ### Numeric evaluation of the example's vectors and scores -/

theorem one_le_idf {n d : ℕ} (h : d ≤ n) : 1 ≤ idf n d := by
  unfold idf
  have hlog : 0 ≤ Real.log (((n : ℝ) + 1) / ((d : ℝ) + 1)) := by
    apply Real.log_nonneg
    rw [le_div_iff₀ (by positivity)]
    have : (d : ℝ) ≤ (n : ℝ) := Nat.cast_le.mpr h
    linarith
  linarith

theorem idf_pos {n d : ℕ} (h : d ≤ n) : 0 < idf n d :=
  lt_of_lt_of_le one_pos (one_le_idf h)

theorem l2normalize_pair_left {a : ℝ} (ha : 0 < a) : l2normalize [a, 0] = [1, 0] := by
  have hs : sumSq [a, 0] = a ^ 2 := by simp [sumSq]
  rw [l2normalize, hs, Real.sqrt_sq ha.le, if_neg ha.ne']
  simp [div_self ha.ne']

theorem l2normalize_pair_right {a : ℝ} (ha : 0 < a) : l2normalize [0, a] = [0, 1] := by
  have hs : sumSq [0, a] = a ^ 2 := by simp [sumSq]
  rw [l2normalize, hs, Real.sqrt_sq ha.le, if_neg ha.ne']
  simp [div_self ha.ne']

theorem cex_row0 : tfidfRow cexCorpus ("xx".toList) = [idf 3 1, 0] := by
  rw [tfidfRow, cex_vocab]
  simp only [List.map_cons, List.map_nil]
  rw [show tfCount "xx".toList "xx".toList = 1 from by decide,
    show tfCount "xx".toList "yy".toList = 0 from by decide,
    show dfCount cexCorpus "xx".toList = 1 from by decide,
    show dfCount cexCorpus "yy".toList = 2 from by decide,
    show cexCorpus.length = 3 from rfl]
  norm_num

theorem cex_row1 : tfidfRow cexCorpus ("yy".toList) = [0, idf 3 2] := by
  rw [tfidfRow, cex_vocab]
  simp only [List.map_cons, List.map_nil]
  rw [show tfCount "yy".toList "xx".toList = 0 from by decide,
    show tfCount "yy".toList "yy".toList = 1 from by decide,
    show dfCount cexCorpus "xx".toList = 1 from by decide,
    show dfCount cexCorpus "yy".toList = 2 from by decide,
    show cexCorpus.length = 3 from rfl]
  norm_num

theorem cex_fv0 : featureVector cexCorpus ("xx".toList) = [1, 0] := by
  rw [featureVector, cex_row0]
  exact l2normalize_pair_left (idf_pos (by norm_num))

theorem cex_fv1 : featureVector cexCorpus ("yy".toList) = [0, 1] := by
  rw [featureVector, cex_row1]
  exact l2normalize_pair_right (idf_pos (by norm_num))

theorem cex_vectors :
    trainVectors cexMeds = [[(1 : ℝ), 0], [0, 1], [0, 1]] := by
  rw [trainVectors, cex_corpus_eq]
  have hexp : cexCorpus.map (featureVector cexCorpus) =
      [featureVector cexCorpus ("xx".toList), featureVector cexCorpus ("yy".toList),
        featureVector cexCorpus ("yy".toList)] := rfl
  rw [hexp, cex_fv0, cex_fv1]

theorem cex_sims :
    simsOf [[(1 : ℝ), 0], [0, 1], [0, 1]] [1, 0] = [1, 0, 0] := by
  simp only [simsOf, List.map_cons, List.map_nil, cosineSim]
  rw [l2normalize_pair_left one_pos, l2normalize_pair_right one_pos]
  simp [dotL]

/-! ### Evaluating the example's ranking -/

theorem cex_argsort : argsortDesc [(1 : ℝ), 0, 0] = [0, 2, 1] := by
  have g0 : ([(1 : ℝ), 0, 0]).getD 0 0 = 1 := rfl
  have g1 : ([(1 : ℝ), 0, 0]).getD 1 0 = 0 := rfl
  have g2 : ([(1 : ℝ), 0, 0]).getD 2 0 = 0 := rfl
  have h12 : lexLe [(1 : ℝ), 0, 0] 1 2 := by
    right
    rw [g1, g2]
    exact ⟨rfl, by omega⟩
  have hn01 : ¬ lexLe [(1 : ℝ), 0, 0] 0 1 := by
    rw [lexLe, g0, g1]
    push_neg
    refine ⟨by norm_num, fun h => absurd h (by norm_num)⟩
  have hn02 : ¬ lexLe [(1 : ℝ), 0, 0] 0 2 := by
    rw [lexLe, g0, g2]
    push_neg
    refine ⟨by norm_num, fun h => absurd h (by norm_num)⟩
  have e2 : List.orderedInsert (lexLe [(1 : ℝ), 0, 0]) 2 [] = [2] := rfl
  have e1 : List.orderedInsert (lexLe [(1 : ℝ), 0, 0]) 1 [2] = [1, 2] := by
    simp only [List.orderedInsert]
    rw [if_pos h12]
  have e0 : List.orderedInsert (lexLe [(1 : ℝ), 0, 0]) 0 [1, 2] = [1, 2, 0] := by
    simp only [List.orderedInsert]
    rw [if_neg hn01, if_neg hn02]
  rw [argsortDesc, show ([(1 : ℝ), 0, 0]).length = 3 from rfl,
    show List.range 3 = [0, 1, 2] from rfl]
  simp only [List.insertionSort]
  rw [e2, e1, e0]
  rfl

theorem cex_find : findMedicine cexSt ("Aa".toList) = some cexA := by
  rw [cexSt_eq]
  decide

/-! ### Claim C1 -/

/-- C1 (amended): for every trained catalogue and every resolvable query
name, the sequence returned by `recommend_similar` is sorted by
non-increasing similarity score. The ascending-tie clause of the claim is
retracted without a replacement guarantee: `np.argsort`'s default quicksort
leaves the relative order of equal scores unspecified (it is unstable above
the small-array cutoff), so the program promises no tie order at all — and
the counterexample below shows the order is not ascending, since on a small
catalogue (where numpy's stable small-array sort applies exactly) the
wholesale reversal puts ties in descending catalogue position. The theorem
therefore asserts only the score-monotonicity part, which follows from the
value-sortedness that every admissible `argsort` implementation shares. -/
theorem c1_ranking_order {s : RecState} {name : List Char} {med : Medicine}
    (topN : ℤ) (ex : Bool) (hT : TrainedOn s)
    (hf : findMedicine s name = some med) :
    ∃ (inputIdx : ℕ) (idxs : List ℕ) (sims : List ℝ),
      sims = simsOf (trainVectors s.medicines)
        ((trainVectors s.medicines).getD inputIdx []) ∧
      idxs = rankIndices (trainVectors s.medicines) inputIdx
        ((trainVectors s.medicines).getD inputIdx []) topN ex ∧
      recommendSimilar s name topN ex =
        RecResult.ok (idxs.map (fun i => (s.medicines.getD i default, sims.getD i 0))) ∧
      List.Pairwise (fun a b => sims.getD b 0 ≤ sims.getD a 0) idxs := by
  obtain ⟨inputIdx, hlook, hb, hm', heq⟩ := recommendSimilar_trained topN ex hT hf
  refine ⟨inputIdx, _, _, rfl, rfl, heq, ?_⟩
  obtain ⟨t, ht, hsub⟩ := recLoop_eq_append inputIdx topN ex
    (argsortDesc (simsOf (trainVectors s.medicines)
      ((trainVectors s.medicines).getD inputIdx []))) []
  rw [rankIndices, ht, List.nil_append]
  exact List.Pairwise.sublist hsub (argsortDesc_scores_mono _)

/-- Witness for C1 (amended), on the concrete trained three-record
catalogue. -/
theorem c1_ranking_order_witness :
    ∃ (inputIdx : ℕ) (idxs : List ℕ) (sims : List ℝ),
      sims = simsOf (trainVectors cexSt.medicines)
        ((trainVectors cexSt.medicines).getD inputIdx []) ∧
      idxs = rankIndices (trainVectors cexSt.medicines) inputIdx
        ((trainVectors cexSt.medicines).getD inputIdx []) 5 true ∧
      recommendSimilar cexSt ("Aa".toList) 5 true =
        RecResult.ok (idxs.map (fun i => (cexSt.medicines.getD i default, sims.getD i 0))) ∧
      List.Pairwise (fun a b => sims.getD b 0 ≤ sims.getD a 0) idxs :=
  c1_ranking_order 5 true cexSt_trainedOn cex_find

/-- Counterexample to C1 as stated: on the trained three-record catalogue
`[Aa, Bb, Cc]` where `Bb` and `Cc` have identical feature texts (so tie at
score 0 against query `Aa`), `recommend_similar` returns `Cc` (position 2)
before `Bb` (position 1) — not the ascending catalogue position the claim
requires on ties. On a 3-element array numpy's argsort runs its stable
small-array insertion sort, for which the model used here is exact, so this
is the real program's output. -/
theorem c1_counterexample :
    recommendSimilar cexSt ("Aa".toList) 5 true =
      RecResult.ok [(cexC, 0), (cexB, 0)] ∧
    cexSt.medicines[1]? = some cexB ∧
    cexSt.medicines[2]? = some cexC ∧
    ¬ ascendingTies cexSt.medicines [(cexC, 0), (cexB, 0)] := by
  obtain ⟨inputIdx, hlook, hb, hm', heq⟩ :=
    recommendSimilar_trained 5 true cexSt_trainedOn cex_find
  have hmeds : cexSt.medicines = cexMeds := by rw [cexSt_eq]
  have h0 : dictLookup (buildIndexMap cexMeds) (lowerL cexA.name) = some 0 := by
    decide
  have hIdx0 : inputIdx = 0 := by
    rw [hmeds] at hlook
    exact (Option.some.inj (h0.symm.trans hlook)).symm
  subst hIdx0
  refine ⟨?_, by rw [hmeds]; decide, by rw [hmeds]; decide, ?_⟩
  · rw [heq, hmeds, cex_vectors,
      show ([[(1 : ℝ), 0], [0, 1], [0, 1]] : List (List ℝ)).getD 0 [] = [1, 0] from rfl]
    simp only [rankIndices]
    rw [cex_sims, cex_argsort, show recLoop 0 5 true [] [0, 2, 1] = [2, 1] from rfl]
    rfl
  · rw [hmeds]
    intro hAsc
    have hrel := (List.pairwise_cons.mp hAsc).1 (cexB, 0) (List.mem_singleton.mpr rfl)
    have := hrel.2 rfl 2 1 (by decide) (by decide)
    omega

/-! ### Claim C2 -/

/-- Counterexample to C2 as stated: `load_database` with a successfully
parsed empty record list does **not** fail — it stores the empty catalogue,
prints a success message and returns `True`. No empty-catalogue error exists
in `load_database` at all. -/
theorem c2_counterexample :
    (loadDatabase initState (some [])).1 = true ∧
    (loadDatabase initState (some [])).2.medicines = [] :=
  ⟨rfl, rfl⟩

/-- C2 (amended): loading zero records succeeds (returns `True`) and leaves
the catalogue empty; the emptiness is only signalled later, by `train_model`
failing with its no-medicines error (leaving the state, in particular the
stored feature vectors, unchanged). -/
theorem c2_empty_load (s : RecState) :
    (loadDatabase s (some [])).1 = true ∧
    (loadDatabase s (some [])).2.medicines = [] ∧
    (trainModel (loadDatabase s (some [])).2).1 = TrainResult.noMedicines ∧
    (trainModel (loadDatabase s (some [])).2).2.medicines = [] ∧
    (trainModel (loadDatabase s (some [])).2).2.featureVectors = s.featureVectors := by
  refine ⟨rfl, rfl, ?_, ?_, ?_⟩
  · rw [trainModel,
      if_pos (show (loadDatabase s (some [])).2.medicines = [] from rfl)]
  · rw [trainModel,
      if_pos (show (loadDatabase s (some [])).2.medicines = [] from rfl)]
    rfl
  · rw [trainModel,
      if_pos (show (loadDatabase s (some [])).2.medicines = [] from rfl)]
    rfl

/-! ### Claim C3 -/

/-- C3: starting from the freshly constructed object, after any sequence of
calls containing no successful `train`, `recommend_similar` signals the
model-not-trained error (the error print plus `return []`) instead of
returning a ranking. -/
theorem c3_model_not_trained (ops : List Op) (name : List Char) (topN : ℤ)
    (ex : Bool) (h : NoSuccTrain initState ops) :
    recommendSimilar (runOps initState ops) name topN ex =
      RecResult.notTrained := by
  have hfv := noSuccTrain_fv_none ops initState rfl h
  simp only [recommendSimilar, hfv]

/-- Witness for C3: load a non-empty catalogue but never train; recommend
fails with the model-not-trained signal. -/
theorem c3_model_not_trained_witness :
    NoSuccTrain initState [Op.load (some fMeds)] ∧
    recommendSimilar (runOps initState [Op.load (some fMeds)])
      ("Aspirin".toList) 5 true = RecResult.notTrained :=
  ⟨⟨fun h => Op.noConfusion h, trivial⟩,
    c3_model_not_trained [Op.load (some fMeds)] ("Aspirin".toList) 5 true
      ⟨fun h => Op.noConfusion h, trivial⟩⟩

/-! ### Claim C4 -/

/-- C4: on a trained catalogue whose lowered names are distinct (the spec's
data-model invariant), `recommend_similar` with `exclude_self=True` never
returns the resolved query record, whatever `top_n` is. -/
theorem c4_exclusion {s : RecState} {name : List Char} {med : Medicine}
    (topN : ℤ) (hT : TrainedOn s) (hf : findMedicine s name = some med)
    (hnd : (s.medicines.map (fun m => lowerL m.name)).Nodup) :
    ∃ l, recommendSimilar s name topN true = RecResult.ok l ∧
      ∀ p ∈ l, p.1 ≠ med := by
  obtain ⟨inputIdx, hlook, hb, ⟨m', hm', hname⟩, heq⟩ :=
    recommendSimilar_trained topN true hT hf
  refine ⟨_, heq, ?_⟩
  intro p hp
  obtain ⟨i, hi, rfl⟩ := List.mem_map.mp hp
  intro hcontra
  have hni : i ≠ inputIdx := fun h =>
    recLoop_not_mem inputIdx topN _ [] (by simp) (h ▸ hi)
  obtain ⟨t, ht, hsub⟩ := recLoop_eq_append inputIdx topN true
    (argsortDesc (simsOf (trainVectors s.medicines)
      ((trainVectors s.medicines).getD inputIdx []))) []
  rw [rankIndices, ht, List.nil_append] at hi
  have hrange : i ∈ List.range ((simsOf (trainVectors s.medicines)
      ((trainVectors s.medicines).getD inputIdx [])).length) :=
    (argsortDesc_perm _).subset (hsub.subset hi)
  have hilen : i < s.medicines.length := by
    have := List.mem_range.mp hrange
    rwa [simsOf_length, trainVectors_length] at this
  have himed : s.medicines[i]? = some med := by
    have hget : s.medicines.getD i default = med := hcontra
    rw [List.getD_eq_getElem _ _ hilen] at hget
    rw [List.getElem?_eq_getElem hilen, hget]
  have h1 : (s.medicines.map (fun m => lowerL m.name))[i]? =
      some (lowerL med.name) := by
    rw [List.getElem?_map, himed]
    rfl
  have h2 : (s.medicines.map (fun m => lowerL m.name))[inputIdx]? =
      some (lowerL med.name) := by
    rw [List.getElem?_map, hm']
    simp [hname]
  exact hni (List.getElem?_inj (by simpa using hilen) hnd (h1.trans h2.symm))

/-- Witness for C4 on the concrete trained catalogue. -/
theorem c4_exclusion_witness :
    ∃ l, recommendSimilar cexSt ("Aa".toList) 9 true = RecResult.ok l ∧
      ∀ p ∈ l, p.1 ≠ cexA :=
  c4_exclusion 9 cexSt_trainedOn cex_find
    (by rw [show cexSt.medicines = cexMeds from by rw [cexSt_eq]]; decide)

/-! ### Claim C5 -/

/-- C5: on a trained catalogue of size `M`, a resolvable query and any
`top_n ≥ 1`, `recommend_similar` with `exclude_self=True` returns exactly
`min(top_n, M - 1)` entries, in particular at most `top_n`. -/
theorem c5_topn_truncation {s : RecState} {name : List Char} {med : Medicine}
    (topN : ℤ) (hT : TrainedOn s) (hf : findMedicine s name = some med)
    (h1 : 1 ≤ topN) :
    ∃ l, recommendSimilar s name topN true = RecResult.ok l ∧
      l.length = min topN.toNat (s.medicines.length - 1) ∧
      (l.length : ℤ) ≤ topN := by
  obtain ⟨inputIdx, hlook, hb, hm', heq⟩ := recommendSimilar_trained topN true hT hf
  refine ⟨_, heq, ?_⟩
  have hslen : (simsOf (trainVectors s.medicines)
      ((trainVectors s.medicines).getD inputIdx [])).length = s.medicines.length := by
    rw [simsOf_length, trainVectors_length]
  have hlen : ((rankIndices (trainVectors s.medicines) inputIdx
      ((trainVectors s.medicines).getD inputIdx []) topN true).map
        (fun i => (s.medicines.getD i default,
          (simsOf (trainVectors s.medicines)
            ((trainVectors s.medicines).getD inputIdx [])).getD i 0))).length =
      min topN.toNat (s.medicines.length - 1) := by
    rw [List.length_map, rankIndices,
      recLoop_eq_take_filter inputIdx topN _ [] (by simp; omega),
      List.nil_append, List.length_take]
    have hfl : ((argsortDesc (simsOf (trainVectors s.medicines)
        ((trainVectors s.medicines).getD inputIdx []))).filter
          (fun x => !decide (x = inputIdx))).length =
        s.medicines.length - 1 := by
      rw [(List.Perm.filter (fun x => !decide (x = inputIdx))
        (argsortDesc_perm _)).length_eq]
      rw [hslen] at *
      exact length_filter_ne_range hb
    rw [hfl]
    simp
  constructor
  · exact hlen
  · rw [hlen]
    have := Nat.min_le_left topN.toNat (s.medicines.length - 1)
    omega

/-- Witness for C5: on the trained three-record catalogue, `top_n = 9`
yields exactly `min(9, 3 - 1) = 2` results. -/
theorem c5_topn_truncation_witness :
    ∃ l, recommendSimilar cexSt ("Aa".toList) 9 true = RecResult.ok l ∧
      l.length = min (9 : ℤ).toNat (cexSt.medicines.length - 1) ∧
      (l.length : ℤ) ≤ 9 :=
  c5_topn_truncation 9 cexSt_trainedOn cex_find (by norm_num)

/-! ### Claim C6 -/

/-- C6: `find_medicine` first tries a case-insensitive exact match through
the name index (returning a record whose lowered name equals the folded
query); only on an exact miss does it scan for the first record, in
catalogue order, whose lowered name contains the folded query as a
substring; if both tiers miss it returns the not-found result `None`. -/
theorem c6_two_tier_lookup {s : RecState} (name : List Char)
    (hIdx : s.medicineIndexMap = buildIndexMap s.medicines) :
    ((∃ m ∈ s.medicines, lowerL m.name = stripL (lowerL name)) →
      ∃ m, findMedicine s name = some m ∧ m ∈ s.medicines ∧
        lowerL m.name = stripL (lowerL name)) ∧
    ((∀ m ∈ s.medicines, lowerL m.name ≠ stripL (lowerL name)) →
      (∃ m ∈ s.medicines, stripL (lowerL name) <:+: lowerL m.name) →
      ∃ (i : ℕ) (m : Medicine), findMedicine s name = some m ∧
        s.medicines[i]? = some m ∧ stripL (lowerL name) <:+: lowerL m.name ∧
        ∀ (j : ℕ) (mj : Medicine), j < i → s.medicines[j]? = some mj →
          ¬ stripL (lowerL name) <:+: lowerL mj.name) ∧
    ((∀ m ∈ s.medicines, ¬ stripL (lowerL name) <:+: lowerL m.name) →
      findMedicine s name = none) := by
  refine ⟨?_, ?_, ?_⟩
  · rintro ⟨m, hm, hname⟩
    obtain ⟨i, hi⟩ := dictLookup_buildIndexMap_of_mem hm
    rw [hname] at hi
    obtain ⟨m', hm', hname'⟩ := dictLookup_buildIndexMap_some hi
    refine ⟨m', ?_, List.getElem?_mem hm', hname'⟩
    simp only [findMedicine, hIdx, hi]
    exact hm'
  · intro hno hsub
    have hnone : dictLookup (buildIndexMap s.medicines) (stripL (lowerL name)) =
        none := by
      cases hd : dictLookup (buildIndexMap s.medicines) (stripL (lowerL name)) with
      | none => rfl
      | some i =>
        obtain ⟨m', hm', hnm⟩ := dictLookup_buildIndexMap_some hd
        exact absurd hnm (hno m' (List.getElem?_mem hm'))
    cases hfind : s.medicines.find?
        (fun m => decide (stripL (lowerL name) <:+: lowerL m.name)) with
    | none =>
      obtain ⟨m, hm, hsubm⟩ := hsub
      exact absurd (decide_eq_true hsubm) (List.find?_eq_none.mp hfind m hm)
    | some a =>
      obtain ⟨i, hi, hpa, hfirst⟩ := find?_first hfind
      refine ⟨i, a, ?_, hi, of_decide_eq_true hpa, ?_⟩
      · simp only [findMedicine, hIdx, hnone, hfind]
      · intro j mj hj hjm hcon
        have := hfirst j mj hj hjm
        rw [decide_eq_true hcon] at this
        exact Bool.noConfusion this
  · intro hno
    have hnone : dictLookup (buildIndexMap s.medicines) (stripL (lowerL name)) =
        none := by
      cases hd : dictLookup (buildIndexMap s.medicines) (stripL (lowerL name)) with
      | none => rfl
      | some i =>
        obtain ⟨m', hm', hnm⟩ := dictLookup_buildIndexMap_some hd
        exact absurd (hnm ▸ List.infix_refl (lowerL m'.name))
          (hno m' (List.getElem?_mem hm'))
    have hfind : s.medicines.find?
        (fun m => decide (stripL (lowerL name) <:+: lowerL m.name)) = none := by
      apply List.find?_eq_none.mpr
      intro m hm hdec
      exact hno m hm (of_decide_eq_true hdec)
    simp only [findMedicine, hIdx, hnone, hfind]

/-- Witness for C6: on the loaded two-record catalogue, `"spir"` has no
exact match and resolves through the substring tier to the Aspirin record. -/
theorem c6_two_tier_lookup_witness :
    ∃ (i : ℕ) (m : Medicine), findMedicine fSt ("spir".toList) = some m ∧
      fSt.medicines[i]? = some m ∧
      stripL (lowerL ("spir".toList)) <:+: lowerL m.name ∧
      ∀ (j : ℕ) (mj : Medicine), j < i → fSt.medicines[j]? = some mj →
        ¬ stripL (lowerL ("spir".toList)) <:+: lowerL mj.name :=
  (c6_two_tier_lookup ("spir".toList) rfl).2.1 (by decide) (by decide)

/-! ### Claim C7 -/

/-- C7: after fitting on a corpus of `N` feature texts, a term is in the
vocabulary iff its document frequency is at least 1 and at most 95% of `N`,
and its idf weight is `ln((1 + N) / (1 + df)) + 1`. -/
theorem c7_vocabulary_and_idf (corpus : List (List Char)) (t : List Char) :
    (t ∈ vocab corpus ↔
      1 ≤ dfCount corpus t ∧
        (dfCount corpus t : ℚ) ≤ (95 / 100 : ℚ) * corpus.length) ∧
    (t ∈ vocab corpus →
      idf corpus.length (dfCount corpus t) =
        Real.log ((1 + (corpus.length : ℝ)) / (1 + (dfCount corpus t : ℝ))) + 1) := by
  constructor
  · constructor
    · intro h
      have hmem := List.mem_filter.mp h
      have hp := of_decide_eq_true hmem.2
      exact ⟨hp.1, by simpa [maxDf] using hp.2⟩
    · rintro ⟨h1, h2⟩
      apply List.mem_filter.mpr
      refine ⟨?_, decide_eq_true ⟨h1, by simpa [maxDf] using h2⟩⟩
      unfold allTerms
      rw [List.mem_dedup, List.mem_flatMap]
      have hpos : 0 < (corpus.filter (fun d => decide (t ∈ analyze d))).length := h1
      obtain ⟨d, hd⟩ := List.exists_mem_of_length_pos hpos
      have hd' := List.mem_filter.mp hd
      exact ⟨d, hd'.1, of_decide_eq_true hd'.2⟩
  · intro _
    unfold idf
    rw [add_comm ((corpus.length : ℝ)) 1, add_comm ((dfCount corpus t : ℝ)) 1]

/-- Witness for C7 on the concrete three-document corpus. -/
theorem c7_vocabulary_and_idf_witness :
    ("xx".toList ∈ vocab cexCorpus) ∧
    idf cexCorpus.length (dfCount cexCorpus ("xx".toList)) =
      Real.log ((1 + (cexCorpus.length : ℝ)) /
        (1 + (dfCount cexCorpus ("xx".toList) : ℝ))) + 1 := by
  have hdf : (1 : ℕ) ≤ dfCount cexCorpus ("xx".toList) ∧
      (dfCount cexCorpus ("xx".toList) : ℚ) ≤ (95 / 100 : ℚ) * cexCorpus.length := by
    rw [show dfCount cexCorpus "xx".toList = 1 from by decide,
      show cexCorpus.length = 3 from rfl]
    norm_num
  have hmem := (c7_vocabulary_and_idf cexCorpus ("xx".toList)).1.mpr hdf
  exact ⟨hmem, (c7_vocabulary_and_idf cexCorpus ("xx".toList)).2 hmem⟩

/-! ### Claim C8 -/

/-- C8: any two feature vectors produced by the trained vectorizer have a
similarity score in `[0, 1]`, and a zero vector has similarity 0 with any
vector (itself included). -/
theorem c8_similarity_bounds (corpus : List (List Char)) (d1 d2 : List Char) :
    0 ≤ cosineSim (featureVector corpus d1) (featureVector corpus d2) ∧
    cosineSim (featureVector corpus d1) (featureVector corpus d2) ≤ 1 ∧
    ∀ u v : List ℝ, (∀ x ∈ u, x = 0) → cosineSim u v = 0 :=
  ⟨cosineSim_nonneg (featureVector_nonneg _ _) (featureVector_nonneg _ _),
    cosineSim_le_one _ _,
    fun _ v h => cosineSim_zero_left h v⟩

/-- Witness for C8: concrete bounds, plus a concrete zero-vector instance of
the third clause. -/
theorem c8_similarity_bounds_witness :
    0 ≤ cosineSim (featureVector cexCorpus ("xx".toList))
        (featureVector cexCorpus ("yy".toList)) ∧
    cosineSim [(0 : ℝ), 0] [3, 4] = 0 := by
  have hz : ∀ x ∈ [(0 : ℝ), 0], x = 0 := by
    intro x hx
    rcases List.mem_cons.mp hx with rfl | hx'
    · rfl
    · simpa using hx'
  exact ⟨(c8_similarity_bounds cexCorpus ("xx".toList) ("yy".toList)).1,
    (c8_similarity_bounds cexCorpus ("xx".toList) ("yy".toList)).2.2 _ _ hz⟩

/-! ### Claim C9 -/

/-- C9: on a non-empty loaded catalogue whose record names are non-empty, a
query that strips to the empty string misses the exact tier (every index key
is a non-empty lowered name) and the substring fallback succeeds at the very
first record, because the empty string is a substring of every name. -/
theorem c9_empty_query {s : RecState} (qname : List Char)
    (hIdx : s.medicineIndexMap = buildIndexMap s.medicines)
    (hne : s.medicines ≠ [])
    (hnames : ∀ m ∈ s.medicines, m.name ≠ [])
    (hq : stripL (lowerL qname) = []) :
    findMedicine s qname = s.medicines.head? := by
  have hnone : dictLookup (buildIndexMap s.medicines) [] = none := by
    cases hd : dictLookup (buildIndexMap s.medicines) [] with
    | none => rfl
    | some i =>
      obtain ⟨m, hm, hnm⟩ := dictLookup_buildIndexMap_some hd
      have hmn : m.name = [] := List.map_eq_nil.mp hnm
      exact absurd hmn (hnames m (List.getElem?_mem hm))
  simp only [findMedicine, hq, hIdx, hnone]
  cases hmed : s.medicines with
  | nil => exact absurd hmed hne
  | cons m rest =>
    rw [List.find?_cons_of_pos rest (by simp)]
    rfl

/-- Witness for C9: whitespace-only query on the loaded two-record
catalogue resolves to the Aspirin record at position 0. -/
theorem c9_empty_query_witness :
    findMedicine fSt ("  ".toList) = fSt.medicines.head? ∧
    fSt.medicines.head? = some aspirinMed :=
  ⟨c9_empty_query ("  ".toList) rfl (by decide) (by decide) (by decide),
    by decide⟩

/-! ### Claim C10 -/

/-- C10: `find_medicine` and `recommend_similar` assign no attribute of the
object: the catalogue, the name index, the fitted vocabulary and the stored
feature vectors are identical before and after either call. -/
theorem c10_no_mutation (s : RecState) (name : List Char) (topN : ℤ)
    (ex : Bool) :
    (findMedicineOp s name).2.medicines = s.medicines ∧
    (findMedicineOp s name).2.medicineIndexMap = s.medicineIndexMap ∧
    (findMedicineOp s name).2.vectorizerVocab = s.vectorizerVocab ∧
    (findMedicineOp s name).2.featureVectors = s.featureVectors ∧
    (recommendOp s name topN ex).2.medicines = s.medicines ∧
    (recommendOp s name topN ex).2.medicineIndexMap = s.medicineIndexMap ∧
    (recommendOp s name topN ex).2.vectorizerVocab = s.vectorizerVocab ∧
    (recommendOp s name topN ex).2.featureVectors = s.featureVectors :=
  ⟨rfl, rfl, rfl, rfl, rfl, rfl, rfl, rfl⟩
